import Mathlib

/-!
Verification development for the RAG PDF question-answering service
(src/chatbot.py).  The Python functions are shallowly embedded as
executable Lean definitions: text is a Lean string (lists of characters
where induction is needed), float vectors become lists of rationals
(idealised exact arithmetic), the FAISS IndexFlatL2 structure is
modelled by its documented behaviour (exact squared-L2 nearest
neighbours, results padded with label -1 and a huge distance when
fewer than k vectors are indexed), and the OpenRouter gateway is an
abstract function from the assembled prompt to a classified outcome.
-/

/-- Whitespace test used by Python str.split() / str.strip() with no
arguments (ASCII whitespace; exotic Unicode space characters are not
relevant to any statement below). -/
def pyIsSpace (c : Char) : Bool :=
  c = ' ' || c = '\t' || c = '\n' || c = '\r' || c = '\x0b' || c = '\x0c'

/-- Fuel-driven worker for pySplit, structurally recursive on the fuel so
that every definition in this file reduces inside the kernel. -/
def pySplitF : Nat → List Char → List (List Char)
  | _, [] => []
  | 0, _ :: _ => []
  | f + 1, c :: cs =>
    if pyIsSpace c then pySplitF f cs
    else (c :: cs.takeWhile (fun x => !pyIsSpace x)) ::
      pySplitF f (cs.dropWhile (fun x => !pyIsSpace x))

/-- Python text.split() with no separator: split on runs of whitespace,
returning the (necessarily non-empty) words. -/
def pySplit (l : List Char) : List (List Char) :=
  pySplitF l.length l

theorem dropWhile_length_le (p : Char → Bool) :
    ∀ l : List Char, (l.dropWhile p).length ≤ l.length := by
  intro l
  induction l with
  | nil => simp
  | cons c cs ih =>
    by_cases h : p c
    · simp only [List.dropWhile_cons, h, if_true]
      exact le_trans ih (Nat.le_succ _)
    · simp [List.dropWhile_cons, h]

theorem pySplitF_fuel : ∀ f g : Nat, ∀ l : List Char,
    l.length ≤ f → l.length ≤ g → pySplitF f l = pySplitF g l := by
  intro f
  induction f with
  | zero =>
    intro g l hf hg
    have : l = [] := List.eq_nil_of_length_eq_zero (Nat.le_zero.mp hf)
    subst this
    cases g <;> rfl
  | succ f ih =>
    intro g l hf hg
    cases l with
    | nil => cases g <;> rfl
    | cons c cs =>
      cases g with
      | zero => exact absurd hg (by simp)
      | succ g =>
        have hcs_f : cs.length ≤ f := by
          have : cs.length + 1 ≤ f + 1 := by simpa using hf
          omega
        have hcs_g : cs.length ≤ g := by
          have : cs.length + 1 ≤ g + 1 := by simpa using hg
          omega
        have hdrop : (cs.dropWhile (fun x => !pyIsSpace x)).length ≤ cs.length :=
          dropWhile_length_le _ cs
        simp only [pySplitF]
        by_cases h : pyIsSpace c
        · simp only [h, if_true]
          exact ih g cs hcs_f hcs_g
        · simp only [h, Bool.false_eq_true, if_false]
          rw [ih g _ (le_trans hdrop hcs_f) (le_trans hdrop hcs_g)]

theorem pySplit_nil : pySplit [] = [] := rfl

theorem pySplit_cons (c : Char) (cs : List Char) :
    pySplit (c :: cs) =
      if pyIsSpace c then pySplit cs
      else (c :: cs.takeWhile (fun x => !pyIsSpace x)) ::
        pySplit (cs.dropWhile (fun x => !pyIsSpace x)) := by
  show pySplitF (cs.length + 1) (c :: cs) = _
  simp only [pySplitF]
  by_cases h : pyIsSpace c
  · simp [h, pySplit]
  · simp only [h, if_false]
    rw [pySplitF_fuel cs.length (cs.dropWhile (fun x => !pyIsSpace x)).length
      _ (dropWhile_length_le _ cs) le_rfl]
    rfl

/-- Every word produced by pySplit is non-empty and contains no whitespace
character, exactly as Python str.split() guarantees. -/
theorem pySplit_words_clean :
    ∀ bound : Nat, ∀ l : List Char, l.length ≤ bound →
      ∀ w ∈ pySplit l, w ≠ [] ∧ ∀ c ∈ w, pyIsSpace c = false := by
  intro bound
  induction bound with
  | zero =>
    intro l hl w hw
    have : l = [] := List.eq_nil_of_length_eq_zero (Nat.le_zero.mp hl)
    subst this
    simp [pySplit_nil] at hw
  | succ bound ih =>
    intro l hl w hw
    cases l with
    | nil => simp [pySplit_nil] at hw
    | cons c cs =>
      have hcs : cs.length ≤ bound := by
        have : cs.length + 1 ≤ bound + 1 := by simpa using hl
        omega
      rw [pySplit_cons] at hw
      by_cases h : pyIsSpace c
      · rw [if_pos h] at hw
        exact ih cs hcs w hw
      · rw [if_neg h] at hw
        rcases List.mem_cons.mp hw with heq | htail
        · subst heq
          refine ⟨List.cons_ne_nil _ _, ?_⟩
          intro x hx
          rcases List.mem_cons.mp hx with hxc | hxt
          · subst hxc
            exact Bool.of_not_eq_true h
          · have := List.mem_takeWhile_imp hxt
            simpa using this
        · have hdl : (cs.dropWhile (fun x => !pyIsSpace x)).length ≤ bound :=
            le_trans (dropWhile_length_le _ cs) hcs
          exact ih _ hdl w htail

theorem takeWhile_append_all (p : Char → Bool) (w r : List Char)
    (h : ∀ c ∈ w, p c = true) :
    (w ++ r).takeWhile p = w ++ r.takeWhile p := by
  induction w with
  | nil => simp
  | cons c cs ih =>
    have hc : p c = true := h c (List.mem_cons_self c cs)
    simp only [List.cons_append, List.takeWhile_cons, hc, if_true]
    rw [ih (fun x hx => h x (List.mem_cons_of_mem c hx))]

theorem dropWhile_append_all (p : Char → Bool) (w r : List Char)
    (h : ∀ c ∈ w, p c = true) :
    (w ++ r).dropWhile p = r.dropWhile p := by
  induction w with
  | nil => simp
  | cons c cs ih =>
    have hc : p c = true := h c (List.mem_cons_self c cs)
    simp only [List.cons_append, List.dropWhile_cons, hc, if_true]
    exact ih (fun x hx => h x (List.mem_cons_of_mem c hx))

/-- Python " ".join(words): concatenate the words separated by a single
space character. -/
def joinWords : List (List Char) → List Char
  | [] => []
  | [w] => w
  | w :: x :: ws => w ++ ' ' :: joinWords (x :: ws)

/-- Splitting a clean word followed by a separator or nothing peels off
exactly that word. -/
theorem pySplit_word_append (w r : List Char) (hne : w ≠ [])
    (hclean : ∀ c ∈ w, pyIsSpace c = false)
    (hr : r = [] ∨ ∃ s r2, r = s :: r2 ∧ pyIsSpace s = true) :
    pySplit (w ++ r) = w :: pySplit r := by
  cases w with
  | nil => exact absurd rfl hne
  | cons c w2 =>
    have hc : pyIsSpace c = false := hclean c (List.mem_cons_self c w2)
    have hw2 : ∀ x ∈ w2, (fun x => !pyIsSpace x) x = true := by
      intro x hx
      simp [hclean x (List.mem_cons_of_mem c hx)]
    rw [List.cons_append, pySplit_cons, if_neg (by simp [hc]),
      takeWhile_append_all _ w2 r hw2, dropWhile_append_all _ w2 r hw2]
    rcases hr with hnil | ⟨s, r2, hr2, hs⟩
    · subst hnil
      simp [pySplit_nil]
    · subst hr2
      rw [List.takeWhile_cons, List.dropWhile_cons]
      simp only [hs, Bool.not_true, Bool.false_eq_true, if_false]
      rw [pySplit_cons, if_pos hs]
      simp

/-- Rebuilding Python words with " ".join and re-splitting returns the
original word list. -/
theorem pySplit_joinWords :
    ∀ ws : List (List Char), ws ≠ [] →
      (∀ w ∈ ws, w ≠ [] ∧ ∀ c ∈ w, pyIsSpace c = false) →
      pySplit (joinWords ws) = ws := by
  intro ws
  induction ws with
  | nil => intro h; exact absurd rfl h
  | cons w rest ih =>
    intro _ hclean
    rcases hclean w (List.mem_cons_self w rest) with ⟨hwne, hwclean⟩
    cases rest with
    | nil =>
      show pySplit (joinWords [w]) = [w]
      have : joinWords [w] = w := rfl
      rw [this]
      have := pySplit_word_append w [] hwne hwclean (Or.inl rfl)
      simpa [pySplit_nil] using this
    | cons x rest2 =>
      show pySplit (w ++ ' ' :: joinWords (x :: rest2)) = w :: x :: rest2
      rw [pySplit_word_append w (' ' :: joinWords (x :: rest2)) hwne hwclean
        (Or.inr ⟨' ', joinWords (x :: rest2), rfl, by simp [pyIsSpace]⟩)]
      rw [pySplit_cons, if_pos (by simp [pyIsSpace])]
      rw [ih (List.cons_ne_nil x rest2)
        (fun u hu => hclean u (List.mem_cons_of_mem w hu))]

/-- pySplit returns the empty list exactly on all-whitespace (possibly
empty) input. -/
theorem pySplit_eq_nil_iff :
    ∀ bound : Nat, ∀ l : List Char, l.length ≤ bound →
      (pySplit l = [] ↔ ∀ c ∈ l, pyIsSpace c = true) := by
  intro bound
  induction bound with
  | zero =>
    intro l hl
    have : l = [] := List.eq_nil_of_length_eq_zero (Nat.le_zero.mp hl)
    subst this
    simp [pySplit_nil]
  | succ bound ih =>
    intro l hl
    cases l with
    | nil => simp [pySplit_nil]
    | cons c cs =>
      have hcs : cs.length ≤ bound := by
        have : cs.length + 1 ≤ bound + 1 := by simpa using hl
        omega
      rw [pySplit_cons]
      by_cases h : pyIsSpace c
      · rw [if_pos h, ih cs hcs]
        constructor
        · intro hall x hx
          rcases List.mem_cons.mp hx with hxc | hxt
          · subst hxc; exact h
          · exact hall x hxt
        · intro hall x hx
          exact hall x (List.mem_cons_of_mem c hx)
      · rw [if_neg h]
        constructor
        · intro hfalse
          exact absurd hfalse (List.cons_ne_nil _ _)
        · intro hall
          exact absurd (hall c (List.mem_cons_self c cs)) h

/-- Fuel-driven worker for chunkWords. -/
def chunkWordsF {α : Type} : Nat → Nat → List α → List (List α)
  | _, _, [] => []
  | 0, _, _ :: _ => []
  | f + 1, n, w :: ws => (w :: ws.take (n - 1)) :: chunkWordsF f n (ws.drop (n - 1))

/-- Grouping step of split_text: the loop
for i in range(0, len(words), chunk_size) collecting words[i:i+chunk_size].
Faithful for every chunk_size at least 1 (the program only ever uses 500;
Python raises ValueError on a zero step, which no statement below uses). -/
def chunkWords {α : Type} (n : Nat) (ws : List α) : List (List α) :=
  chunkWordsF ws.length n ws

theorem chunkWordsF_fuel {α : Type} : ∀ f g n : Nat, ∀ ws : List α,
    ws.length ≤ f → ws.length ≤ g → chunkWordsF f n ws = chunkWordsF g n ws := by
  intro f
  induction f with
  | zero =>
    intro g n ws hf hg
    have : ws = [] := List.eq_nil_of_length_eq_zero (Nat.le_zero.mp hf)
    subst this
    cases g <;> rfl
  | succ f ih =>
    intro g n ws hf hg
    cases ws with
    | nil => cases g <;> rfl
    | cons w ws2 =>
      cases g with
      | zero => exact absurd hg (by simp)
      | succ g =>
        have hf2 : ws2.length ≤ f := by
          have : ws2.length + 1 ≤ f + 1 := by simpa using hf
          omega
        have hg2 : ws2.length ≤ g := by
          have : ws2.length + 1 ≤ g + 1 := by simpa using hg
          omega
        have hdrop : (ws2.drop (n - 1)).length ≤ ws2.length := by
          rw [List.length_drop]
          omega
        simp only [chunkWordsF]
        rw [ih g n _ (le_trans hdrop hf2) (le_trans hdrop hg2)]

theorem chunkWords_nil {α : Type} (n : Nat) : chunkWords n ([] : List α) = [] := rfl

theorem chunkWords_cons {α : Type} (n : Nat) (w : α) (ws : List α) :
    chunkWords n (w :: ws) = (w :: ws.take (n - 1)) :: chunkWords n (ws.drop (n - 1)) := by
  show chunkWordsF (ws.length + 1) n (w :: ws) = _
  simp only [chunkWordsF]
  rw [chunkWordsF_fuel ws.length (ws.drop (n - 1)).length n _
    (by rw [List.length_drop]; omega) le_rfl]
  rfl

theorem chunkWords_eq_nil_iff {α : Type} (n : Nat) (ws : List α) :
    chunkWords n ws = [] ↔ ws = [] := by
  cases ws with
  | nil => simp [chunkWords_nil]
  | cons w ws2 =>
    rw [chunkWords_cons]
    simp

/-- The grouped chunks concatenate back to the original word sequence. -/
theorem chunkWords_flatten {α : Type} (n : Nat) :
    ∀ bound : Nat, ∀ ws : List α, ws.length ≤ bound →
      (chunkWords n ws).flatten = ws := by
  intro bound
  induction bound with
  | zero =>
    intro ws hw
    have : ws = [] := List.eq_nil_of_length_eq_zero (Nat.le_zero.mp hw)
    subst this
    simp [chunkWords_nil]
  | succ bound ih =>
    intro ws hw
    cases ws with
    | nil => simp [chunkWords_nil]
    | cons w ws2 =>
      have hw2 : ws2.length ≤ bound := by
        have : ws2.length + 1 ≤ bound + 1 := by simpa using hw
        omega
      have hdrop : (ws2.drop (n - 1)).length ≤ bound := by
        rw [List.length_drop]
        omega
      rw [chunkWords_cons]
      simp only [List.flatten_cons]
      rw [ih _ hdrop, List.cons_append, List.take_append_drop]

/-- Every chunk holds between 1 and n words (for n at least 1). -/
theorem chunkWords_sizes {α : Type} (n : Nat) (hn : 1 ≤ n) :
    ∀ bound : Nat, ∀ ws : List α, ws.length ≤ bound →
      ∀ c ∈ chunkWords n ws, 1 ≤ c.length ∧ c.length ≤ n := by
  intro bound
  induction bound with
  | zero =>
    intro ws hw c hc
    have : ws = [] := List.eq_nil_of_length_eq_zero (Nat.le_zero.mp hw)
    subst this
    simp [chunkWords_nil] at hc
  | succ bound ih =>
    intro ws hw c hc
    cases ws with
    | nil => simp [chunkWords_nil] at hc
    | cons w ws2 =>
      have hw2 : ws2.length ≤ bound := by
        have : ws2.length + 1 ≤ bound + 1 := by simpa using hw
        omega
      have hdrop : (ws2.drop (n - 1)).length ≤ bound := by
        rw [List.length_drop]
        omega
      rw [chunkWords_cons] at hc
      rcases List.mem_cons.mp hc with heq | htail
      · subst heq
        constructor
        · simp
        · simp only [List.length_cons, List.length_take]
          omega
      · exact ih _ hdrop c htail

/-- Every chunk except the final one holds exactly n words (for n at
least 1). -/
theorem chunkWords_dropLast_sizes {α : Type} (n : Nat) (hn : 1 ≤ n) :
    ∀ bound : Nat, ∀ ws : List α, ws.length ≤ bound →
      ∀ c ∈ (chunkWords n ws).dropLast, c.length = n := by
  intro bound
  induction bound with
  | zero =>
    intro ws hw c hc
    have : ws = [] := List.eq_nil_of_length_eq_zero (Nat.le_zero.mp hw)
    subst this
    simp [chunkWords_nil] at hc
  | succ bound ih =>
    intro ws hw c hc
    cases ws with
    | nil => simp [chunkWords_nil] at hc
    | cons w ws2 =>
      have hw2 : ws2.length ≤ bound := by
        have : ws2.length + 1 ≤ bound + 1 := by simpa using hw
        omega
      have hdrop : (ws2.drop (n - 1)).length ≤ bound := by
        rw [List.length_drop]
        omega
      rw [chunkWords_cons] at hc
      cases hrest : chunkWords n (ws2.drop (n - 1)) with
      | nil =>
        rw [hrest] at hc
        simp at hc
      | cons c0 cs0 =>
        rw [hrest] at hc
        rw [List.dropLast_cons₂] at hc
        rcases List.mem_cons.mp hc with heq | htail
        · subst heq
          have hne : ws2.drop (n - 1) ≠ [] := by
            intro hnil
            rw [(chunkWords_eq_nil_iff n _).mpr hnil] at hrest
            exact List.cons_ne_nil c0 cs0 hrest.symm
          have hlen : n - 1 ≤ ws2.length := by
            by_contra hlt
            push_neg at hlt
            have : ws2.drop (n - 1) = [] := List.drop_eq_nil_of_le (le_of_lt hlt)
            exact hne this
          simp only [List.length_cons, List.length_take]
          omega
        · rw [← hrest] at htail
          exact ih _ hdrop c htail

/-- split_text(text, chunk_size) from src/chatbot.py at the character-list
level: words = text.split(); then " ".join(words[i:i+chunk_size]) for i in
range(0, len(words), chunk_size). -/
def splitTextL (text : List Char) (n : Nat) : List (List Char) :=
  (chunkWords n (pySplit text)).map joinWords

/-- split_text over Lean strings, used by the upload pipeline (the default
chunk_size in the source is 500). -/
def splitText (text : String) (n : Nat) : List String :=
  (splitTextL text.toList n).map String.mk

/-- Every chunk produced by chunkWords is non-empty, for any step. -/
theorem chunkWords_mem_ne_nil {α : Type} (n : Nat) :
    ∀ bound : Nat, ∀ ws : List α, ws.length ≤ bound →
      ∀ c ∈ chunkWords n ws, c ≠ [] := by
  intro bound
  induction bound with
  | zero =>
    intro ws hw c hc
    have : ws = [] := List.eq_nil_of_length_eq_zero (Nat.le_zero.mp hw)
    subst this
    simp [chunkWords_nil] at hc
  | succ bound ih =>
    intro ws hw c hc
    cases ws with
    | nil => simp [chunkWords_nil] at hc
    | cons w ws2 =>
      have hw2 : ws2.length ≤ bound := by
        have : ws2.length + 1 ≤ bound + 1 := by simpa using hw
        omega
      have hdrop : (ws2.drop (n - 1)).length ≤ bound := by
        rw [List.length_drop]
        omega
      rw [chunkWords_cons] at hc
      rcases List.mem_cons.mp hc with heq | htail
      · subst heq
        exact List.cons_ne_nil _ _
      · exact ih _ hdrop c htail

theorem splitTextL_map_pySplit (text : List Char) (n : Nat) :
    (splitTextL text n).map pySplit = chunkWords n (pySplit text) := by
  unfold splitTextL
  rw [List.map_map]
  have hclean : ∀ c ∈ chunkWords n (pySplit text), (pySplit ∘ joinWords) c = id c := by
    intro c hc
    have hmem : ∀ w ∈ c, w ∈ pySplit text := by
      intro w hw
      have hfl : w ∈ (chunkWords n (pySplit text)).flatten :=
        List.mem_flatten.mpr ⟨c, hc, hw⟩
      rwa [chunkWords_flatten n (pySplit text).length _ le_rfl] at hfl
    have hwords : ∀ w ∈ c, w ≠ [] ∧ ∀ ch ∈ w, pyIsSpace ch = false := by
      intro w hw
      exact pySplit_words_clean text.length text le_rfl w (hmem w hw)
    have hcne : c ≠ [] :=
      chunkWords_mem_ne_nil n (pySplit text).length (pySplit text) le_rfl c hc
    exact pySplit_joinWords c hcne hwords
  rw [List.map_congr_left hclean, List.map_id]

/-- C2: For every non-empty, non-all-whitespace input text and chunk size
n at least 1, re-splitting the chunks produced by split_text into words
and concatenating them in order recovers exactly the whitespace-split
word sequence of the input (no loss, no duplication); every chunk other
than the last holds exactly n words, and every chunk (hence also the
last one) holds between 1 and n words. -/
theorem splitText_words_partition (text : List Char) (n : Nat)
    (hn : 1 ≤ n) (hne : pySplit text ≠ []) :
    ((splitTextL text n).map pySplit).flatten = pySplit text
    ∧ (∀ ws ∈ ((splitTextL text n).map pySplit).dropLast, ws.length = n)
    ∧ ∀ ws ∈ (splitTextL text n).map pySplit, 1 ≤ ws.length ∧ ws.length ≤ n := by
  rw [splitTextL_map_pySplit]
  refine ⟨?_, ?_, ?_⟩
  · exact chunkWords_flatten n (pySplit text).length (pySplit text) le_rfl
  · exact chunkWords_dropLast_sizes n hn (pySplit text).length (pySplit text) le_rfl
  · exact chunkWords_sizes n hn (pySplit text).length (pySplit text) le_rfl

/-- Witness for C2 at the concrete text "a b c" with chunk size 2. -/
theorem splitText_words_partition_witness :
    ((splitTextL "a b c".toList 2).map pySplit).flatten = pySplit "a b c".toList
    ∧ (∀ ws ∈ ((splitTextL "a b c".toList 2).map pySplit).dropLast, ws.length = 2)
    ∧ ∀ ws ∈ (splitTextL "a b c".toList 2).map pySplit,
        1 ≤ ws.length ∧ ws.length ≤ 2 :=
  splitText_words_partition "a b c".toList 2 (by decide) (by decide)

/-- Squared Euclidean (L2) distance, the metric of faiss.IndexFlatL2,
in exact rational arithmetic. -/
def sqDist (u v : List ℚ) : ℚ :=
  (List.zipWith (fun a b => (a - b) ^ 2) u v).sum

theorem sqDist_self (v : List ℚ) : sqDist v v = 0 := by
  induction v with
  | nil => rfl
  | cons a vs ih =>
    simp only [sqDist, List.zipWith_cons_cons, List.sum_cons] at ih ⊢
    rw [ih]
    ring

theorem sqDist_nonneg (u v : List ℚ) : 0 ≤ sqDist u v := by
  induction u generalizing v with
  | nil => simp [sqDist]
  | cons a us ih =>
    cases v with
    | nil => simp [sqDist]
    | cons b vs =>
      simp only [sqDist, List.zipWith_cons_cons, List.sum_cons]
      have h1 : 0 ≤ (a - b) ^ 2 := sq_nonneg _
      have h2 := ih vs
      simp only [sqDist] at h2
      linarith

theorem sqDist_eq_zero (u v : List ℚ) (hlen : u.length = v.length)
    (h : sqDist u v = 0) : u = v := by
  induction u generalizing v with
  | nil =>
    cases v with
    | nil => rfl
    | cons b vs => simp at hlen
  | cons a us ih =>
    cases v with
    | nil => simp at hlen
    | cons b vs =>
      simp only [sqDist, List.zipWith_cons_cons, List.sum_cons] at h
      have h1 : 0 ≤ (a - b) ^ 2 := sq_nonneg _
      have h2 : 0 ≤ sqDist us vs := sqDist_nonneg us vs
      simp only [sqDist] at h2
      have hab : (a - b) ^ 2 = 0 := by linarith
      have hrest : sqDist us vs = 0 := by
        simp only [sqDist]
        linarith
      have ha : a = b := by
        have := pow_eq_zero_iff (n := 2) (by norm_num) |>.mp hab
        linarith [sub_eq_zero.mp this]
      have hl : us.length = vs.length := by simpa using hlen
      rw [ha, ih vs hl hrest]

/-- The in-memory faiss.IndexFlatL2 object: its dimension and the vectors
added to it, in insertion order. ntotal is the number of stored vectors. -/
structure FaissIndex where
  dim : Nat
  vecs : List (List ℚ)
deriving DecidableEq, Repr

def FaissIndex.ntotal (ix : FaissIndex) : Nat := ix.vecs.length

/-- Typed failure conditions of index construction.  In
create_faiss_index(embeddings) an empty vector sequence makes
embeddings.shape[1] raise (a (0,)-shaped array has no second axis) and a
ragged sequence cannot form a 2-D float32 array; both abort the build
with no index produced.  The spec names these conditions EmptyCorpus
and DimensionMismatch. -/
inductive BuildError where
  | emptyCorpus : BuildError
  | dimensionMismatch : BuildError
deriving DecidableEq, Repr

/-- create_faiss_index from src/chatbot.py: dimension = shape of first
vector, IndexFlatL2(dimension), index.add(embeddings). -/
def createFaissIndex (embeddings : List (List ℚ)) : Except BuildError FaissIndex :=
  match embeddings with
  | [] => Except.error BuildError.emptyCorpus
  | v :: vs =>
    if vs.all (fun u => u.length == v.length)
    then Except.ok ⟨v.length, v :: vs⟩
    else Except.error BuildError.dimensionMismatch

theorem createFaissIndex_ok (V : List (List ℚ)) (ix : FaissIndex)
    (h : createFaissIndex V = Except.ok ix) :
    ix.vecs = V ∧ V ≠ [] ∧ ∀ u ∈ V, ∀ w ∈ V, u.length = w.length := by
  cases V with
  | nil => simp [createFaissIndex] at h
  | cons v vs =>
    by_cases hall : vs.all (fun u => u.length == v.length)
    · rw [createFaissIndex, if_pos hall] at h
      have hix : ix = ⟨v.length, v :: vs⟩ := by
        cases h
        rfl
      have hlen : ∀ u ∈ v :: vs, u.length = v.length := by
        intro u hu
        rcases List.mem_cons.mp hu with heq | htail
        · rw [heq]
        · have := List.all_eq_true.mp hall u htail
          exact Nat.beq_eq_true_eq _ _ |>.mp this
      subst hix
      refine ⟨rfl, List.cons_ne_nil _ _, ?_⟩
      intro u hu w hw
      rw [hlen u hu, hlen w hw]
    · rw [createFaissIndex, if_neg hall] at h
      cases h

/-- Comparison used to rank scored candidates: strictly smaller distance
first, and among exactly equal distances the smaller insertion index
first — the behaviour of the exhaustive IndexFlat scan, whose max-heap
replaces an entry only on strictly smaller distance, so the earliest
index wins ties. -/
def pairR (a b : ℚ × Nat) : Prop :=
  a.1 < b.1 ∨ (a.1 = b.1 ∧ a.2 ≤ b.2)

instance : DecidableRel pairR := by
  intro a b
  unfold pairR
  infer_instance

instance : IsTotal (ℚ × Nat) pairR := by
  constructor
  intro a b
  rcases lt_trichotomy a.1 b.1 with h | h | h
  · exact Or.inl (Or.inl h)
  · rcases Nat.le_total a.2 b.2 with h2 | h2
    · exact Or.inl (Or.inr ⟨h, h2⟩)
    · exact Or.inr (Or.inr ⟨h.symm, h2⟩)
  · exact Or.inr (Or.inl h)

instance : IsTrans (ℚ × Nat) pairR := by
  constructor
  intro a b c hab hbc
  rcases hab with h1 | ⟨h1, h1n⟩ <;> rcases hbc with h2 | ⟨h2, h2n⟩
  · exact Or.inl (lt_trans h1 h2)
  · exact Or.inl (h2 ▸ h1)
  · exact Or.inl (h1 ▸ h2)
  · exact Or.inr ⟨h1.trans h2, le_trans h1n h2n⟩

/-- All (distance, position) candidates for a query against the stored
vectors. -/
def scoredOf (vecs : List (List ℚ)) (q : List ℚ) : List (ℚ × Nat) :=
  (List.range vecs.length).map (fun j => (sqDist q (vecs.getD j []), j))

theorem length_scoredOf (vecs : List (List ℚ)) (q : List ℚ) :
    (scoredOf vecs q).length = vecs.length := by
  simp [scoredOf]

theorem mem_scoredOf (vecs : List (List ℚ)) (q : List ℚ) (p : ℚ × Nat) :
    p ∈ scoredOf vecs q ↔ p.2 < vecs.length ∧ p.1 = sqDist q (vecs.getD p.2 []) := by
  simp only [scoredOf, List.mem_map, List.mem_range]
  constructor
  · rintro ⟨j, hj, rfl⟩
    exact ⟨hj, rfl⟩
  · rintro ⟨hlt, hval⟩
    exact ⟨p.2, hlt, by rw [← hval]⟩

/-- Distance reported by faiss for padding slots when fewer than k
vectors are indexed (FLT_MAX in the C++ implementation; its exact value
is never observed by the Python caller, which only reads the -1 label). -/
def faissMaxDist : ℚ := 340282346638528859811704183484516925440

/-- IndexFlatL2.search(query, k) as documented: the k exact nearest
stored vectors by squared L2 distance, ascending, as (label, distance)
pairs with 0-based labels; when fewer than k vectors are indexed the
remaining slots are padded with label -1. -/
def faissSearch (ix : FaissIndex) (q : List ℚ) (k : Nat) : List (Int × ℚ) :=
  let sorted := List.insertionSort pairR (scoredOf ix.vecs q)
  let tops := sorted.take k
  tops.map (fun p => ((p.2 : Int), p.1)) ++
    List.replicate (k - tops.length) ((-1 : Int), faissMaxDist)

/-- The global pdf_store dictionary: chunks, embeddings and index (the
latter two are None until a successful upload). -/
structure PdfStore where
  chunks : List String
  embeddings : Option (List (List ℚ))
  index : Option FaissIndex
deriving DecidableEq, Repr

/-- Python list indexing chunks[i]: non-negative positions index from the
front, negative positions index from the back (so -1 is the last chunk);
an out-of-range access (IndexError) is modelled as none. -/
def pyGet (l : List String) (i : Int) : Option String :=
  let j : Int := if i < 0 then (l.length : Int) + i else i
  if j < 0 then none else l[j.toNat]?

/-- search_similar(query, top_k) from src/chatbot.py: empty result when
no index is loaded; otherwise embed the query, run the index search and
keep chunks[idx] for every returned label with idx < len(chunks).  The
embedder is passed explicitly as the function the loaded
SentenceTransformer computes.  (An IndexError from chunks[idx] — possible
only when the store chunks and index are desynchronised — is modelled by
skipping the entry.) -/
def searchSimilar (embed : String → List ℚ) (store : PdfStore)
    (query : String) (top_k : Nat) : List String :=
  match store.index with
  | none => []
  | some ix =>
    let ids := (faissSearch ix (embed query) top_k).map (fun p => p.1)
    ids.filterMap (fun i =>
      if i < (store.chunks.length : Int) then pyGet store.chunks i else none)

/-- Classified outcome of the OpenRouter HTTP call in ask_llm: a parsed
answer, a requests.RequestException (transport/HTTP-status failure), a
KeyError while reading choices[0].message.content, or any other
exception. -/
inductive GatewayOutcome where
  | success (content : String)
  | transportError (msg : String)
  | parseError (msg : String)
  | otherError (msg : String)
deriving DecidableEq, Repr

/-- Python truthiness of the API_KEY value: missing (None) or empty. -/
def keyMissing : Option String → Bool
  | none => true
  | some s => s.isEmpty

/-- The f-string prompt template of ask_llm, verbatim. -/
def promptFor (question context : String) : String :=
  "Based on the following information, answer the question in detail:\n\nInformation:\n\n"
    ++ context ++ "\n\nQuestion: " ++ question ++ "\n\nAnswer:"

/-- Leading instruction block of the prompt template. -/
def promptIntro : String :=
  "Based on the following information, answer the question in detail:\n\nInformation:\n\n"

/-- Separator placed between the context block and the question. -/
def promptQuestionLabel : String := "\n\nQuestion: "

/-- Trailing cue of the prompt template. -/
def promptAnswerLabel : String := "\n\nAnswer:"

/-- ask_llm(question, context) from src/chatbot.py.  Every failure path
returns an explanatory string instead of raising. -/
def askLLM (apiKey : Option String) (gw : String → GatewayOutcome)
    (question context : String) : String :=
  if keyMissing apiKey then "Error: OPENROUTER_API_KEY not configured"
  else
    match gw (promptFor question context) with
    | GatewayOutcome.success content => content
    | GatewayOutcome.transportError e => "Error connecting to model: " ++ e
    | GatewayOutcome.parseError e => "Error parsing response: " ++ e
    | GatewayOutcome.otherError e => "Unexpected error: " ++ e

/-- JSON payload returned by the /ask/ endpoint on success. -/
structure AskResponse where
  question : String
  answer : String
  sources_used : Nat
deriving DecidableEq, Repr

/-- An HTTPException raised by an endpoint: status code and detail. -/
structure HTTPFailure where
  status : Nat
  detail : String
deriving DecidableEq, Repr

/-- ask_question from src/chatbot.py: 400 when no index is loaded, 404
when retrieval comes back empty, otherwise the chunks joined with a
blank line feed ask_llm and the structured payload is returned. -/
def askQuestion (embed : String → List ℚ) (apiKey : Option String)
    (gw : String → GatewayOutcome) (store : PdfStore) (q : String) :
    Except HTTPFailure AskResponse :=
  match store.index with
  | none => Except.error ⟨400, "Must upload PDF first"⟩
  | some _ =>
    let relevant := searchSimilar embed store q 3
    if relevant = [] then Except.error ⟨404, "No relevant information found"⟩
    else
      Except.ok ⟨q, askLLM apiKey gw q (String.intercalate "\n\n" relevant),
        relevant.length⟩

/-- Python text.strip(): remove leading and trailing whitespace. -/
def pyStrip (l : List Char) : List Char :=
  ((l.dropWhile pyIsSpace).reverse.dropWhile pyIsSpace).reverse

def pyStripS (s : String) : String :=
  String.mk (pyStrip s.toList)

/-- upload_pdf from src/chatbot.py, starting from the extracted document
text (filename checking and PDF byte parsing are outside the core): a
blank text is rejected with 400 before anything is built; otherwise the
text is chunked with chunk_size 500, embedded, indexed, and the three
pdf_store fields are replaced; an index-construction failure surfaces as
the endpoint's generic 500 and leaves no new store. -/
def uploadPdf (embed : String → List ℚ) (text : String) :
    Except HTTPFailure PdfStore :=
  if pyStripS text = "" then Except.error ⟨400, "No text found in PDF"⟩
  else
    let chunks := splitText text 500
    let embeddings := chunks.map embed
    match createFaissIndex embeddings with
    | Except.error _ => Except.error ⟨500, "Processing error"⟩
    | Except.ok ix => Except.ok ⟨chunks, some embeddings, some ix⟩

deriving instance DecidableEq for Except

/-- C7: with no index loaded, retrieval returns an empty result rather
than an error, and the result does not depend on the embedder at all —
the embedder is never invoked (the guard returns before get_embedder()
and model.encode run). -/
theorem searchSimilar_no_index_empty (embed embed2 : String → List ℚ)
    (store : PdfStore) (q : String) (k : Nat) (h : store.index = none) :
    searchSimilar embed store q k = []
    ∧ searchSimilar embed2 store q k = searchSimilar embed store q k := by
  constructor
  · unfold searchSimilar
    rw [h]
  · unfold searchSimilar
    rw [h]

/-- Witness for C7 on a concrete store with no index and two different
embedders. -/
theorem searchSimilar_no_index_empty_witness :
    searchSimilar (fun _ => [(0 : ℚ)]) ⟨["hi"], none, none⟩ "q" 3 = []
    ∧ searchSimilar (fun _ => [(1 : ℚ), 2]) ⟨["hi"], none, none⟩ "q" 3
        = searchSimilar (fun _ => [(0 : ℚ)]) ⟨["hi"], none, none⟩ "q" 3 :=
  searchSimilar_no_index_empty (fun _ => [(0 : ℚ)]) (fun _ => [(1 : ℚ), 2])
    ⟨["hi"], none, none⟩ "q" 3 rfl

/-- C4: building an index over an empty vector sequence fails with
EmptyCorpus, and over a sequence holding a vector whose length differs
from the first vector's length fails with DimensionMismatch; no index is
produced in either case. -/
theorem createFaissIndex_failures (v : List ℚ) (vs : List (List ℚ))
    (h : ∃ u ∈ vs, u.length ≠ v.length) :
    createFaissIndex ([] : List (List ℚ)) = Except.error BuildError.emptyCorpus
    ∧ createFaissIndex (v :: vs) = Except.error BuildError.dimensionMismatch := by
  refine ⟨rfl, ?_⟩
  have hnall : ¬ (vs.all (fun u => u.length == v.length) = true) := by
    intro hall
    obtain ⟨u, hu, hne⟩ := h
    exact hne (Nat.beq_eq_true_eq _ _ |>.mp (List.all_eq_true.mp hall u hu))
  rw [createFaissIndex, if_neg hnall]

/-- Witness for C4 at concrete mismatched vectors. -/
theorem createFaissIndex_failures_witness :
    createFaissIndex ([] : List (List ℚ)) = Except.error BuildError.emptyCorpus
    ∧ createFaissIndex [[(0 : ℚ)], [0, 0]] = Except.error BuildError.dimensionMismatch :=
  createFaissIndex_failures [(0 : ℚ)] [[0, 0]] ⟨[0, 0], by simp, by simp⟩

/-- C1 (refuting evaluation): on a corpus holding a single chunk, a
search with top_k = 3 does not return min(k, index.size()) = 1 result —
FAISS pads the missing neighbours with label -1, the guard
idx < len(chunks) accepts -1, and Python indexes chunks[-1] as the last
chunk, so the single chunk is returned three times. -/
theorem searchSimilar_small_corpus_duplicates :
    searchSimilar (fun _ => [(0 : ℚ)])
      ⟨["hi"], some [[(0 : ℚ)]], some ⟨1, [[(0 : ℚ)]]⟩⟩ "q" 3
      = ["hi", "hi", "hi"] := by decide

/-- C3 (counterexample): with an empty retrieved-chunk sequence the
prompt assembled by ask_llm is the instruction template around an empty
context block, not the question verbatim. -/
theorem promptFor_empty_context_not_verbatim :
    promptFor "hi" (String.intercalate "\n\n" ([] : List String)) ≠ "hi" := by
  decide

/-- C3 (amended): whenever chunks are retrieved the prompt is the chunks
joined with a blank-line separator wrapped in the fixed instruction
template, with the question placed after the context block; and when
retrieval is empty no prompt is sent at all — ask_question fails with
404 before calling ask_llm. -/
theorem prompt_template_or_404 (q : String) (chunks : List String)
    (embed : String → List ℚ) (apiKey : Option String)
    (gw : String → GatewayOutcome) (store : PdfStore) (ix : FaissIndex)
    (hc : chunks ≠ []) (hix : store.index = some ix)
    (hempty : searchSimilar embed store q 3 = []) :
    promptFor q (String.intercalate "\n\n" chunks)
        = promptIntro ++ String.intercalate "\n\n" chunks
          ++ promptQuestionLabel ++ q ++ promptAnswerLabel
    ∧ askQuestion embed apiKey gw store q
        = Except.error ⟨404, "No relevant information found"⟩ := by
  constructor
  · rfl
  · unfold askQuestion
    rw [hix]
    simp [hempty]

/-- Witness for C3 at a concrete question, chunk pair, and a store whose
retrieval is empty. -/
theorem prompt_template_or_404_witness :
    promptFor "hi" (String.intercalate "\n\n" ["a", "b"])
        = promptIntro ++ String.intercalate "\n\n" ["a", "b"]
          ++ promptQuestionLabel ++ "hi" ++ promptAnswerLabel
    ∧ askQuestion (fun _ => [(0 : ℚ)]) none (fun _ => GatewayOutcome.success "ok")
        ⟨[], some [[(0 : ℚ)]], some ⟨1, [[(0 : ℚ)]]⟩⟩ "hi"
        = Except.error ⟨404, "No relevant information found"⟩ :=
  prompt_template_or_404 "hi" ["a", "b"] (fun _ => [(0 : ℚ)]) none
    (fun _ => GatewayOutcome.success "ok")
    ⟨[], some [[(0 : ℚ)]], some ⟨1, [[(0 : ℚ)]]⟩⟩ ⟨1, [[(0 : ℚ)]]⟩
    (by decide) rfl (by decide)

/-- C5: whatever the gateway does — transport failure, missing/empty
credential, unparseable response, any other exception — ask_question
still returns a structured payload whose answer string carries the
explanatory error message and whose sources_used equals the number of
chunks retrieved before the gateway call; nothing is raised. -/
theorem askQuestion_gateway_failure_structured
    (embed : String → List ℚ) (apiKey : Option String)
    (gw : String → GatewayOutcome) (store : PdfStore) (q e : String)
    (ix : FaissIndex) (hix : store.index = some ix)
    (hne : searchSimilar embed store q 3 ≠ []) :
    ∃ r : AskResponse,
      askQuestion embed apiKey gw store q = Except.ok r
      ∧ r.question = q
      ∧ r.sources_used = (searchSimilar embed store q 3).length
      ∧ r.answer = askLLM apiKey gw q
          (String.intercalate "\n\n" (searchSimilar embed store q 3))
      ∧ (keyMissing apiKey = true →
          r.answer = "Error: OPENROUTER_API_KEY not configured")
      ∧ (keyMissing apiKey = false →
          gw (promptFor q (String.intercalate "\n\n" (searchSimilar embed store q 3)))
            = GatewayOutcome.transportError e →
          r.answer = "Error connecting to model: " ++ e)
      ∧ (keyMissing apiKey = false →
          gw (promptFor q (String.intercalate "\n\n" (searchSimilar embed store q 3)))
            = GatewayOutcome.parseError e →
          r.answer = "Error parsing response: " ++ e)
      ∧ (keyMissing apiKey = false →
          gw (promptFor q (String.intercalate "\n\n" (searchSimilar embed store q 3)))
            = GatewayOutcome.otherError e →
          r.answer = "Unexpected error: " ++ e) := by
  have hmain : askQuestion embed apiKey gw store q
      = Except.ok ⟨q, askLLM apiKey gw q
          (String.intercalate "\n\n" (searchSimilar embed store q 3)),
          (searchSimilar embed store q 3).length⟩ := by
    unfold askQuestion
    rw [hix]
    simp only [if_neg hne]
  refine ⟨_, hmain, rfl, rfl, rfl, ?_, ?_, ?_, ?_⟩
  · intro hkm
    simp [askLLM, hkm]
  · intro hkm hgw
    simp [askLLM, hkm, hgw]
  · intro hkm hgw
    simp [askLLM, hkm, hgw]
  · intro hkm hgw
    simp [askLLM, hkm, hgw]

/-- Witness for C5: a one-chunk store with a missing API key and a
gateway that reports a transport failure. -/
theorem askQuestion_gateway_failure_structured_witness :
    ∃ r : AskResponse,
      askQuestion (fun _ => [(0 : ℚ)]) none (fun _ => GatewayOutcome.transportError "boom")
          ⟨["hi"], some [[(0 : ℚ)]], some ⟨1, [[(0 : ℚ)]]⟩⟩ "q" = Except.ok r
      ∧ r.question = "q"
      ∧ r.sources_used = (searchSimilar (fun _ => [(0 : ℚ)])
          ⟨["hi"], some [[(0 : ℚ)]], some ⟨1, [[(0 : ℚ)]]⟩⟩ "q" 3).length
      ∧ r.answer = askLLM none (fun _ => GatewayOutcome.transportError "boom") "q"
          (String.intercalate "\n\n" (searchSimilar (fun _ => [(0 : ℚ)])
            ⟨["hi"], some [[(0 : ℚ)]], some ⟨1, [[(0 : ℚ)]]⟩⟩ "q" 3))
      ∧ (keyMissing none = true →
          r.answer = "Error: OPENROUTER_API_KEY not configured")
      ∧ (keyMissing none = false →
          (fun _ => GatewayOutcome.transportError "boom")
            (promptFor "q" (String.intercalate "\n\n" (searchSimilar (fun _ => [(0 : ℚ)])
              ⟨["hi"], some [[(0 : ℚ)]], some ⟨1, [[(0 : ℚ)]]⟩⟩ "q" 3)))
            = GatewayOutcome.transportError "boom" →
          r.answer = "Error connecting to model: " ++ "boom")
      ∧ (keyMissing none = false →
          (fun _ => GatewayOutcome.transportError "boom")
            (promptFor "q" (String.intercalate "\n\n" (searchSimilar (fun _ => [(0 : ℚ)])
              ⟨["hi"], some [[(0 : ℚ)]], some ⟨1, [[(0 : ℚ)]]⟩⟩ "q" 3)))
            = GatewayOutcome.parseError "boom" →
          r.answer = "Error parsing response: " ++ "boom")
      ∧ (keyMissing none = false →
          (fun _ => GatewayOutcome.transportError "boom")
            (promptFor "q" (String.intercalate "\n\n" (searchSimilar (fun _ => [(0 : ℚ)])
              ⟨["hi"], some [[(0 : ℚ)]], some ⟨1, [[(0 : ℚ)]]⟩⟩ "q" 3)))
            = GatewayOutcome.otherError "boom" →
          r.answer = "Unexpected error: " ++ "boom") :=
  askQuestion_gateway_failure_structured (fun _ => [(0 : ℚ)]) none
    (fun _ => GatewayOutcome.transportError "boom")
    ⟨["hi"], some [[(0 : ℚ)]], some ⟨1, [[(0 : ℚ)]]⟩⟩ "q" "boom"
    ⟨1, [[(0 : ℚ)]]⟩ rfl (by decide)

/-- C6: a successful upload leaves a store whose chunk list, embedding
list and index agree in length, with the j-th stored and indexed vector
being exactly the embedding of the j-th chunk. -/
theorem uploadPdf_corpus_invariant (embed : String → List ℚ) (text : String)
    (store : PdfStore) (h : uploadPdf embed text = Except.ok store) :
    ∃ vecs ix, store.embeddings = some vecs ∧ store.index = some ix
      ∧ store.chunks.length = vecs.length
      ∧ vecs.length = ix.ntotal
      ∧ ix.vecs = vecs
      ∧ ∀ j, j < store.chunks.length →
          vecs.getD j [] = embed (store.chunks.getD j "") := by
  unfold uploadPdf at h
  by_cases hblank : pyStripS text = ""
  · rw [if_pos hblank] at h
    cases h
  · rw [if_neg hblank] at h
    simp only at h
    cases hbuild : createFaissIndex ((splitText text 500).map embed) with
    | error e =>
      rw [hbuild] at h
      cases h
    | ok ix =>
      rw [hbuild] at h
      have hstore : store = ⟨splitText text 500,
          some ((splitText text 500).map embed), some ix⟩ := by
        cases h
        rfl
      obtain ⟨hvecs, -, -⟩ := createFaissIndex_ok _ _ hbuild
      subst hstore
      refine ⟨(splitText text 500).map embed, ix, rfl, rfl, ?_, ?_, hvecs, ?_⟩
      · simp
      · rw [FaissIndex.ntotal, hvecs]
      · intro j hj
        have hjm : j < ((splitText text 500).map embed).length := by simpa using hj
        rw [List.getD_eq_getElem _ _ hjm, List.getD_eq_getElem _ _ hj,
          List.getElem_map]

/-- Witness for C6: uploading the two-word text "a b" with a constant
embedder yields the expected one-chunk store. -/
theorem uploadPdf_corpus_invariant_witness :
    ∃ vecs ix,
      (PdfStore.mk ["a b"] (some [[(1 : ℚ)]]) (some ⟨1, [[(1 : ℚ)]]⟩)).embeddings = some vecs
      ∧ (PdfStore.mk ["a b"] (some [[(1 : ℚ)]]) (some ⟨1, [[(1 : ℚ)]]⟩)).index = some ix
      ∧ (PdfStore.mk ["a b"] (some [[(1 : ℚ)]]) (some ⟨1, [[(1 : ℚ)]]⟩)).chunks.length = vecs.length
      ∧ vecs.length = ix.ntotal
      ∧ ix.vecs = vecs
      ∧ ∀ j, j < (PdfStore.mk ["a b"] (some [[(1 : ℚ)]]) (some ⟨1, [[(1 : ℚ)]]⟩)).chunks.length →
          vecs.getD j [] = (fun _ => [(1 : ℚ)])
            ((PdfStore.mk ["a b"] (some [[(1 : ℚ)]]) (some ⟨1, [[(1 : ℚ)]]⟩)).chunks.getD j "") :=
  uploadPdf_corpus_invariant (fun _ => [(1 : ℚ)]) "a b"
    ⟨["a b"], some [[(1 : ℚ)]], some ⟨1, [[(1 : ℚ)]]⟩⟩ (by decide)

/-- Retrieval over a loaded, consistent, non-empty corpus always yields
at least one chunk: the index search returns at least the nearest stored
vector, whose label is a valid 0-based position below len(chunks). -/
theorem searchSimilar_ne_nil (embed : String → List ℚ) (store : PdfStore)
    (q : String) (ix : FaissIndex) (hix : store.index = some ix)
    (hlen : ix.vecs.length = store.chunks.length)
    (hcne : store.chunks ≠ []) :
    searchSimilar embed store q 3 ≠ [] := by
  unfold searchSimilar
  rw [hix]
  simp only
  have hpos : 0 < ix.vecs.length := by
    rw [hlen]
    exact List.length_pos.mpr hcne
  have hslen : (List.insertionSort pairR (scoredOf ix.vecs (embed q))).length
      = ix.vecs.length := by
    rw [List.length_insertionSort, length_scoredOf]
  obtain ⟨h0, t, hsort⟩ : ∃ h0 t,
      List.insertionSort pairR (scoredOf ix.vecs (embed q)) = h0 :: t := by
    cases hs : List.insertionSort pairR (scoredOf ix.vecs (embed q)) with
    | nil =>
      rw [hs] at hslen
      simp at hslen
      omega
    | cons a b => exact ⟨a, b, rfl⟩
  have hmem : h0 ∈ scoredOf ix.vecs (embed q) := by
    have : h0 ∈ List.insertionSort pairR (scoredOf ix.vecs (embed q)) := by
      rw [hsort]
      exact List.mem_cons_self _ _
    exact (List.mem_insertionSort pairR).mp this
  have hidx : h0.2 < store.chunks.length := by
    rw [← hlen]
    exact ((mem_scoredOf _ _ _).mp hmem).1
  have hfs : faissSearch ix (embed q) 3
      = ((h0.2 : Int), h0.1) :: ((t.take 2).map (fun p => ((p.2 : Int), p.1))
          ++ List.replicate (3 - (h0 :: t.take 2).length) ((-1 : Int), faissMaxDist)) := by
    unfold faissSearch
    rw [hsort]
    rfl
  rw [hfs]
  simp only [List.map_cons, List.filterMap_cons]
  have hguard : ((h0.2 : Int) < (store.chunks.length : Int)) := by
    exact_mod_cast hidx
  rw [if_pos hguard]
  have hnn : ¬ ((h0.2 : Int) < 0) := Int.not_lt.mpr (Int.natCast_nonneg _)
  have hget : pyGet store.chunks (h0.2 : Int)
      = some (store.chunks.get ⟨h0.2, hidx⟩) := by
    unfold pyGet
    simp only [hnn, if_false]
    have htn : ((h0.2 : Int)).toNat = h0.2 := Int.toNat_natCast h0.2
    rw [htn, List.getElem?_eq_getElem hidx]
    rfl
  rw [hget]
  simp

/-- C9: whenever an index built from a non-empty chunk list is loaded
(lengths agreeing, as every successful upload guarantees), retrieval
returns at least one chunk, so ask_question never reaches its 404
"No relevant information found" branch: it returns a structured answer. -/
theorem askQuestion_404_unreachable (embed : String → List ℚ)
    (apiKey : Option String) (gw : String → GatewayOutcome)
    (store : PdfStore) (q : String) (ix : FaissIndex)
    (hix : store.index = some ix)
    (hlen : ix.vecs.length = store.chunks.length)
    (hcne : store.chunks ≠ []) :
    searchSimilar embed store q 3 ≠ []
    ∧ ∃ r : AskResponse, askQuestion embed apiKey gw store q = Except.ok r := by
  have hne := searchSimilar_ne_nil embed store q ix hix hlen hcne
  refine ⟨hne, ⟨⟨q, askLLM apiKey gw q
    (String.intercalate "\n\n" (searchSimilar embed store q 3)),
    (searchSimilar embed store q 3).length⟩, ?_⟩⟩
  unfold askQuestion
  rw [hix]
  simp only [if_neg hne]

/-- Witness for C9 on a concrete consistent one-chunk store. -/
theorem askQuestion_404_unreachable_witness :
    searchSimilar (fun _ => [(0 : ℚ)])
        ⟨["hi"], some [[(0 : ℚ)]], some ⟨1, [[(0 : ℚ)]]⟩⟩ "q" 3 ≠ []
    ∧ ∃ r : AskResponse,
        askQuestion (fun _ => [(0 : ℚ)]) (some "k") (fun _ => GatewayOutcome.success "fine")
          ⟨["hi"], some [[(0 : ℚ)]], some ⟨1, [[(0 : ℚ)]]⟩⟩ "q" = Except.ok r :=
  askQuestion_404_unreachable (fun _ => [(0 : ℚ)]) (some "k")
    (fun _ => GatewayOutcome.success "fine")
    ⟨["hi"], some [[(0 : ℚ)]], some ⟨1, [[(0 : ℚ)]]⟩⟩ "q" ⟨1, [[(0 : ℚ)]]⟩
    rfl (by decide) (by decide)

/-- C8 (amended): for an index built over pairwise-distinct vectors V,
searching with query V[i] and k = 1 returns exactly position i with
distance 0 — the exact self-match of the squared-L2 scan. -/
theorem faissSearch_self_match (V : List (List ℚ)) (ix : FaissIndex) (i : Nat)
    (hV : createFaissIndex V = Except.ok ix) (hi : i < V.length)
    (hnd : V.Nodup) :
    faissSearch ix (V.getD i []) 1 = [((i : Int), 0)] := by
  obtain ⟨hvecs, hVne, hhom⟩ := createFaissIndex_ok V ix hV
  have hpos : 0 < V.length := List.length_pos.mpr hVne
  have hmemq : ((0 : ℚ), i) ∈ scoredOf V (V.getD i []) := by
    rw [mem_scoredOf]
    exact ⟨hi, (sqDist_self _).symm⟩
  have hsorted : List.Sorted pairR (List.insertionSort pairR (scoredOf V (V.getD i []))) :=
    List.sorted_insertionSort pairR _
  have hslen : (List.insertionSort pairR (scoredOf V (V.getD i []))).length = V.length := by
    rw [List.length_insertionSort, length_scoredOf]
  obtain ⟨h0, t, hsort⟩ : ∃ h0 t,
      List.insertionSort pairR (scoredOf V (V.getD i [])) = h0 :: t := by
    cases hs : List.insertionSort pairR (scoredOf V (V.getD i [])) with
    | nil =>
      rw [hs] at hslen
      simp at hslen
      omega
    | cons a b => exact ⟨a, b, rfl⟩
  have hmem0 : ((0 : ℚ), i) ∈ h0 :: t := by
    rw [← hsort]
    exact (List.mem_insertionSort pairR).mpr hmemq
  have hh0mem : h0 ∈ scoredOf V (V.getD i []) := by
    have : h0 ∈ List.insertionSort pairR (scoredOf V (V.getD i [])) := by
      rw [hsort]
      exact List.mem_cons_self _ _
    exact (List.mem_insertionSort pairR).mp this
  obtain ⟨hh0lt, hh0val⟩ := (mem_scoredOf _ _ _).mp hh0mem
  have hh0 : h0 = ((0 : ℚ), i) := by
    rcases List.mem_cons.mp hmem0 with heq | htail
    · exact heq.symm
    · have hrel : pairR h0 ((0 : ℚ), i) := by
        rw [hsort] at hsorted
        exact List.rel_of_sorted_cons hsorted _ htail
      have hnonneg : 0 ≤ h0.1 := by
        rw [hh0val]
        exact sqDist_nonneg _ _
      rcases hrel with hlt | ⟨heq0, -⟩
      · exact absurd (lt_of_le_of_lt hnonneg hlt) (lt_irrefl 0)
      · have hzero : sqDist (V.getD i []) (V.getD h0.2 []) = 0 := by
          rw [← hh0val, heq0]
        have hle : (V.getD i []).length = (V.getD h0.2 []).length := by
          rw [List.getD_eq_getElem _ _ hi, List.getD_eq_getElem _ _ hh0lt]
          exact hhom _ (List.getElem_mem hi) _ (List.getElem_mem hh0lt)
        have heqv : V.getD i [] = V.getD h0.2 [] :=
          sqDist_eq_zero _ _ hle hzero
        have hieq : i = h0.2 := by
          rw [List.getD_eq_getElem _ _ hi, List.getD_eq_getElem _ _ hh0lt] at heqv
          exact (List.Nodup.getElem_inj_iff hnd).mp heqv
        have : h0 = (h0.1, h0.2) := rfl
        rw [this, heq0, ← hieq]
  have hfs : faissSearch ix (V.getD i []) 1
      = [((h0.2 : Int), h0.1)] := by
    unfold faissSearch
    rw [hvecs, hsort]
    rfl
  rw [hfs, hh0]

/-- Witness for C8 over the two distinct one-dimensional vectors
[0] and [1], querying with V[1]. -/
theorem faissSearch_self_match_witness :
    faissSearch ⟨1, [[(0 : ℚ)], [1]]⟩ (([[(0 : ℚ)], [1]] : List (List ℚ)).getD 1 []) 1
      = [((1 : Int), 0)] :=
  faissSearch_self_match [[(0 : ℚ)], [1]] ⟨1, [[(0 : ℚ)], [1]]⟩ 1
    (by decide) (by decide) (by decide)

/-- C8 (counterexample): the claim fails when the indexed vectors are
not pairwise distinct.  Over V = [[0], [0]] the query V[1] has two
stored vectors at distance 0, and the exhaustive scan keeps the earliest
index on an exact tie, so search(V[1], k=1) returns position 0, not
position 1. -/
theorem faissSearch_duplicate_self_match_cex :
    createFaissIndex [[(0 : ℚ)], [0]] = Except.ok ⟨1, [[(0 : ℚ)], [0]]⟩
    ∧ faissSearch ⟨1, [[(0 : ℚ)], [0]]⟩
        (([[(0 : ℚ)], [0]] : List (List ℚ)).getD 1 []) 1 = [((0 : Int), 0)]
    ∧ faissSearch ⟨1, [[(0 : ℚ)], [0]]⟩
        (([[(0 : ℚ)], [0]] : List (List ℚ)).getD 1 []) 1 ≠ [((1 : Int), 0)] := by
  have hgd : (([[(0 : ℚ)], [0]] : List (List ℚ)).getD 1 []) = [(0 : ℚ)] := rfl
  have hsc : scoredOf [[(0 : ℚ)], [0]] [(0 : ℚ)] = [((0 : ℚ), 0), ((0 : ℚ), 1)] := by
    unfold scoredOf
    simp only [List.length_cons, List.length_nil]
    rw [show (0 + 1 + 1 : Nat) = 2 from rfl]
    rw [show List.range 2 = [0, 1] by simp [List.range_succ]]
    simp only [List.map_cons, List.map_nil, List.getD_cons_zero, List.getD_cons_succ]
    rw [sqDist_self]
  have heval : faissSearch ⟨1, [[(0 : ℚ)], [0]]⟩
      (([[(0 : ℚ)], [0]] : List (List ℚ)).getD 1 []) 1 = [((0 : Int), 0)] := by
    rw [hgd]
    unfold faissSearch
    simp only
    rw [hsc]
    rw [show List.insertionSort pairR [((0 : ℚ), 0), ((0 : ℚ), 1)]
        = [((0 : ℚ), 0), ((0 : ℚ), 1)] by
      simp [List.insertionSort, List.orderedInsert, pairR]]
    rfl
  refine ⟨by decide, heval, ?_⟩
  rw [heval]
  decide
